import Mathlib

/-!
Shallow embedding of `src/hmm_model.py` (class `MarketHMM`), the regime-inference
engine of the repository.

Conventions used throughout:

- numpy `float64` scalars are modelled as `ℚ` (exact arithmetic; the spec's
  "± floating tolerance" row-sum statements become exact equalities over `ℚ`);
- a numpy value that is NaN (e.g. the mean over an empty row slice,
  `X[labels == k].mean(axis=0)` with no assigned rows) is modelled as
  `Option.none` at the level of the affected mean row;
- a Python call that raises is modelled by `Option.none` at the call's result
  (`next_state_probabilities` / `expected_next_return` / `predict_next_state`
  return `Option _`: `none` means the corresponding Python call raised);
- the external estimation libraries (hmmlearn's `GaussianHMM`, sklearn's
  `GaussianMixture` and `KMeans`, numpy's `RandomState`) are not code of this
  repository; they are modelled as an explicit environment `FitEnv` of
  deterministic functions of exactly the arguments the source passes to them
  (`n_states`, `random_state`, `X`); an `Option.none` outcome models the
  library being unavailable or raising, which the source catches to fall
  through to the next tier.
-/

/-- Squared Euclidean distance between two feature vectors.  The source
(`predict_states`, line 86) uses `np.linalg.norm(...)` and then `argmin`;
since `Real.sqrt` is strictly monotone, `argmin` over norms equals `argmin`
over squared norms, so the embedding works with squared distances in `ℚ`. -/
def sqDist (x v : List ℚ) : ℚ :=
  (List.zipWith (fun a b => (a - b) * (a - b)) x v).sum

/-- Dot product of two equal-length vectors (`np.dot`). -/
def dotQ (a b : List ℚ) : ℚ :=
  (List.zipWith (· * ·) a b).sum

/-- Auxiliary scan for `np.argmax`: carries the current position, the best
index so far and the best value so far; a strictly larger value updates the
best, so ties keep the first occurrence, exactly as `np.argmax` does. -/
def argmaxAux : List ℚ → ℕ → ℕ → ℚ → ℕ × ℚ
  | [], _, bi, bv => (bi, bv)
  | x :: xs, i, bi, bv =>
    if bv < x then argmaxAux xs (i + 1) i x else argmaxAux xs (i + 1) bi bv

/-- Index of the first maximal element of a list (`np.argmax`). -/
def argmaxIdx : List ℚ → ℕ
  | [] => 0
  | x :: xs => (argmaxAux xs 1 0 x).1

/-- Auxiliary scan for `np.argmin` over float values that may be NaN
(modelled as `none`).  numpy's argmin loop updates the running minimum when
the candidate compares smaller OR is NaN, and stops at the first NaN; the
net effect, reproduced here, is that the first NaN's index is returned when
a NaN is present, and otherwise the first minimum's index. -/
def argminNaNAux : List (Option ℚ) → ℕ → ℕ → ℚ → ℕ
  | [], _, bi, _ => bi
  | none :: _, i, _, _ => i
  | some x :: xs, i, bi, bv =>
    if x < bv then argminNaNAux xs (i + 1) i x else argminNaNAux xs (i + 1) bi bv

/-- Index returned by `np.argmin` on a float list possibly containing NaN
(`none`): the first NaN's index when one is present, else the index of the
first minimum. -/
def argminNaN : List (Option ℚ) → ℕ
  | [] => 0
  | none :: _ => 0
  | some x :: xs => argminNaNAux xs 1 0 x

/-- The state of a `MarketHMM` instance.  Field names follow the source.
`model` records whether `self.model` currently holds a (non-`None`) hmmlearn
model object; `last_labels` is the source's `_last_labels` attribute, absent
(`none`) until a fallback fit stores it. -/
structure MarketHMM where
  n_states : ℕ
  random_state : Option ℤ
  model : Bool
  fallback : Bool
  transition_matrix_ : Option (List (List ℚ))
  means_ : Option (List (Option (List ℚ)))
  last_labels : Option (List ℕ)
deriving Repr, DecidableEq

/-- Constructor `MarketHMM.__init__`: fresh instance, nothing fitted. -/
def mk0 (n_states : ℕ) (random_state : Option ℤ) : MarketHMM :=
  { n_states := n_states
    random_state := random_state
    model := false
    fallback := false
    transition_matrix_ := none
    means_ := none
    last_labels := none }

/-- Number of consecutive label pairs `(a, b)` with `a = i` and `b = j`:
the count accumulated at `trans[i, j]` by the loop
`for a, b in zip(labels[:-1], labels[1:]): trans[a, b] += 1`. -/
def pairCountN (labels : List ℕ) (i j : ℕ) : ℕ :=
  (labels.zip labels.tail).countP (fun p => p.1 == i && p.2 == j)

/-- Number of observed outgoing transitions from state `i`: consecutive label
pairs whose first component is `i`. -/
def outTransCount (labels : List ℕ) (i : ℕ) : ℕ :=
  (labels.zip labels.tail).countP (fun p => p.1 == i)

/-- Lines 59-67 of `fit`: the empirical transition matrix.  Row `i` holds the
counts `trans[i, j]`, divided by the row sum, where a zero row sum is first
replaced by 1 (`row_sums[row_sums == 0] = 1`), so a zero row stays zero
rather than producing NaN. -/
def computeTransitionMatrix (k : ℕ) (labels : List ℕ) : List (List ℚ) :=
  (List.range k).map (fun i =>
    let row : List ℕ := (List.range k).map (fun j => pairCountN labels i j)
    let s : ℕ := row.sum
    let g : ℚ := if s = 0 then 1 else (s : ℚ)
    row.map (fun (c : ℕ) => (c : ℚ) / g))

/-- Column count `X.shape[1]` for a rectangular matrix given as a list of rows. -/
def numCols (X : List (List ℚ)) : ℕ := (X.headD []).length

/-- Zero matrix `np.zeros((k, d))`. -/
def zerosMatrix (k d : ℕ) : List (List ℚ) :=
  List.replicate k (List.replicate d 0)

/-- Row selection `X[labels == s]`: the rows of `X` whose label is `s`. -/
def assignedRows (X : List (List ℚ)) (labels : List ℕ) (s : ℕ) : List (List ℚ) :=
  ((X.zip labels).filter (fun p => p.2 == s)).map Prod.fst

/-- Column-wise mean of a nonempty set of rows (`.mean(axis=0)`). -/
def colMean (rows : List (List ℚ)) (d : ℕ) : List ℚ :=
  (List.range d).map (fun j => (rows.map (fun r => r.getD j 0)).sum / (rows.length : ℚ))

/-- Group mean `X[labels == s].mean(axis=0)` (line 52): `none` models the NaN row numpy
produces when no rows are assigned to state `s` (mean of an empty slice). -/
def groupMean (X : List (List ℚ)) (labels : List ℕ) (s : ℕ) : Option (List ℚ) :=
  let rows := assignedRows X labels s
  if rows.isEmpty then none else some (colMean rows (numCols X))

/-- The per-state means `np.vstack([X[labels == k].mean(axis=0) for k in range(n_states)])`
of the KMeans fallback tier; a state with no assigned rows yields a NaN row (`none`). -/
def tierBMeans (k : ℕ) (X : List (List ℚ)) (labels : List ℕ) : List (Option (List ℚ)) :=
  (List.range k).map (groupMean X labels)

/-- Outcome of the primary hmmlearn tier, as observed by `fit`'s `try` block:
`unavailable` = the import (or the constructor) raised, so `self.model` is
untouched; `constructedFailed` = `GaussianHMM(...)` was assigned to
`self.model` but `self.model.fit(X)` (or a later line) raised;
`success T M?` = fit succeeded with transition matrix `T`, where `M? = none`
models `self.model.means_` raising (line 31), in which case the source
substitutes `np.zeros((n_states, X.shape[1]))`. -/
inductive HmmOutcome where
  | unavailable : HmmOutcome
  | constructedFailed : HmmOutcome
  | success : List (List ℚ) → Option (List (List ℚ)) → HmmOutcome
deriving Repr, DecidableEq

/-- Whether the primary tier succeeded. -/
def HmmOutcome.isSuccess : HmmOutcome → Bool
  | .success _ _ => true
  | _ => false

/-- Environment of external estimators, each a deterministic function of the
arguments the source passes it.  `hmm` models hmmlearn's seeded `GaussianHMM`;
`gm` models sklearn's `GaussianMixture.fit_predict` plus `means_` (labels and
component means; `none` = unavailable or raised); `km` models sklearn's
`KMeans.fit_predict` (labels; `none` = unavailable or raised); `rand`
models `np.random.RandomState(seed).randint(0, k, size=n)`.  Determinism of
these functions given a fixed seed is these libraries' documented behavior. -/
structure FitEnv where
  hmm : ℕ → Option ℤ → List (List ℚ) → HmmOutcome
  gm : ℕ → Option ℤ → List (List ℚ) → Option (List ℕ × List (List ℚ))
  km : ℕ → Option ℤ → List (List ℚ) → Option (List ℕ)
  rand : Option ℤ → ℕ → ℕ → List ℕ

/-- The labels produced by whichever fallback tier runs (lines 38-57):
GaussianMixture labels, else KMeans labels, else seeded random labels. -/
def fitLabels (env : FitEnv) (k : ℕ) (seed : Option ℤ) (X : List (List ℚ)) : List ℕ :=
  match env.gm k seed X with
  | some (ls, _) => ls
  | none =>
    match env.km k seed X with
    | some ls => ls
    | none => env.rand seed k X.length

/-- The `means_` produced by whichever fallback tier runs: the mixture's
component means, else the empirical per-group means (tier B, possibly with
NaN rows), else `np.zeros((k, d))`. -/
def fitMeans (env : FitEnv) (k : ℕ) (seed : Option ℤ) (X : List (List ℚ)) :
    List (Option (List ℚ)) :=
  match env.gm k seed X with
  | some (_, ms) => ms.map some
  | none =>
    match env.km k seed X with
    | some ls => tierBMeans k X ls
    | none => (zerosMatrix k (numCols X)).map some

/-- Method `MarketHMM.fit` (lines 18-71).  The primary tier, when it succeeds, sets
`model`, clears `fallback`, and stores the learned transition matrix and
means (zeros if `means_` raised) — note it does NOT touch `last_labels`.
Otherwise the fallback path runs: `self.model` is left alone when the import
failed and points at the unfit object when construction succeeded but fit
raised; labels and means come from the tier chain; the empirical transition
matrix, the `fallback` flag and `_last_labels` are stored. -/
def MarketHMM.fit (env : FitEnv) (m : MarketHMM) (X : List (List ℚ)) : MarketHMM :=
  match env.hmm m.n_states m.random_state X with
  | .success T Mopt =>
    { m with
      model := true
      fallback := false
      transition_matrix_ := some T
      means_ := some ((Mopt.getD (zerosMatrix m.n_states (numCols X))).map some) }
  | h =>
    { m with
      model := (match h with | .constructedFailed => true | _ => m.model)
      fallback := true
      means_ := some (fitMeans env m.n_states m.random_state X)
      transition_matrix_ :=
        some (computeTransitionMatrix m.n_states
          (fitLabels env m.n_states m.random_state X))
      last_labels := some (fitLabels env m.n_states m.random_state X) }

/-- Method `next_state_probabilities` (lines 101-106): uniform vector when no
transition matrix is present; otherwise row `current_state` of the matrix
(`none` models the `IndexError` Python raises for an out-of-range state). -/
def next_state_probabilities (m : MarketHMM) (current_state : ℕ) : Option (List ℚ) :=
  match m.transition_matrix_ with
  | none => some (List.replicate m.n_states ((1 : ℚ) / (m.n_states : ℚ)))
  | some T => T.get? current_state

/-- Column `ri` of the means matrix (`means[:, return_index]`): `none` when
the index is out of range (Python raises) or when a row is NaN (the extracted
entry, and hence the final dot product, would be NaN). -/
def colOpt (M : List (Option (List ℚ))) (ri : ℕ) : Option (List ℚ) :=
  match M with
  | [] => some []
  | r :: rest =>
    match r.bind (fun row => row.get? ri), colOpt rest ri with
    | some v, some vs => some (v :: vs)
    | _, _ => none

/-- Method `expected_next_return` (lines 108-123): the transition-probability vector
dotted with the chosen column of the per-state means; `0.0` when `means_` is
unset.  The source's `means.ndim == 1` branch is dead in this repository
(every assignment to `self.means_` is a 2-d array), so the embedding keeps
`means_` two-dimensional. -/
def expected_next_return (m : MarketHMM) (current_state : ℕ) (return_index : ℕ) : Option ℚ :=
  match next_state_probabilities m current_state with
  | none => none
  | some probs =>
    match m.means_ with
    | none => some 0
    | some M =>
      match colOpt M return_index with
      | none => none
      | some em => some (dotQ probs em)

/-- Lines 83-87 of `predict_states`: zeros when `means_` is unset, otherwise
nearest-mean assignment of each row.  The distance from a row to a NaN mean
row (`none`, produced by a tier-B fit whose clustering left that state
empty) is itself NaN, and `np.argmin` then returns the first NaN's index,
which `argminNaN` reproduces. -/
def nearestOrZeros (m : MarketHMM) (X : List (List ℚ)) : List ℕ :=
  match m.means_ with
  | none => List.replicate X.length 0
  | some M => X.map (fun x => argminNaN (M.map (fun mu => mu.map (sqDist x))))

/-- Method `predict_states` (lines 73-87).  `ext` is the outcome of the external
`self.model.predict(X)` call (`none` = the call raised, or was never made);
it is consulted only when `not self.fallback and self.model is not None`.
Then the cached `_last_labels` are returned when present with matching
length, else nearest-mean assignment (or zeros). -/
def predict_states (m : MarketHMM) (ext : Option (List ℕ)) (X : List (List ℚ)) : List ℕ :=
  match (if !m.fallback && m.model then ext else none) with
  | some r => r
  | none =>
    match m.last_labels with
    | some ll => if ll.length = X.length then ll else nearestOrZeros m X
    | none => nearestOrZeros m X

/-- Method `predict_next_state` (lines 89-94): the current state when no transition
matrix is present, else `argmax` of the state's row (`none` models the
`IndexError` for an out-of-range state). -/
def predict_next_state (m : MarketHMM) (current_state : ℕ) : Option ℕ :=
  match m.transition_matrix_ with
  | none => some current_state
  | some T => (T.get? current_state).map argmaxIdx

/-- A call to `next_state_probabilities` as a state transformer: the method
body of lines 101-106 contains no assignment to any attribute, so the
instance after the call is the instance before it. -/
def next_state_probabilities_run (m : MarketHMM) (current_state : ℕ) :
    Option (List ℚ) × MarketHMM :=
  (next_state_probabilities m current_state, m)

/-- A call to `expected_next_return` as a state transformer: the method body
of lines 108-123 contains no assignment to any attribute. -/
def expected_next_return_run (m : MarketHMM) (current_state ri : ℕ) :
    Option ℚ × MarketHMM :=
  (expected_next_return m current_state ri, m)

/-- Boolean well-formedness of an instance: the shape invariants every
reachable instance satisfies (the spec's recognized range is
`stateCount ≥ 1`; hmmlearn/sklearn return a k×k transition matrix, k mean
rows and labels in `[0, k)`).  Mean rows may be NaN (`none`): a tier-B fit
whose clustering leaves a state empty really produces one. -/
def WFb (m : MarketHMM) : Bool :=
  decide (1 ≤ m.n_states) &&
  (match m.transition_matrix_ with
   | none => true
   | some T => T.length == m.n_states && T.all (fun r => r.length == m.n_states)) &&
  (match m.means_ with
   | none => true
   | some M => M.length == m.n_states) &&
  (match m.last_labels with
   | none => true
   | some ll => ll.all (fun v => v < m.n_states))

/-- Propositional form of `WFb`. -/
def WF (m : MarketHMM) : Prop := WFb m = true

/-! ### General list and argmin/argmax lemmas -/

lemma sum_map_addQ {α : Type} (l : List α) (f g : α → ℚ) :
    (l.map (fun x => f x + g x)).sum = (l.map f).sum + (l.map g).sum := by
  induction l with
  | nil => simp
  | cons a t ih => simp [ih]; ring

lemma sum_map_divQ {α : Type} (l : List α) (f : α → ℚ) (s : ℚ) :
    (l.map (fun x => f x / s)).sum = (l.map f).sum / s := by
  induction l with
  | nil => simp
  | cons a t ih => simp [ih, add_div]

lemma nat_sum_zero_iff (l : List ℕ) : l.sum = 0 ↔ ∀ x ∈ l, x = 0 := by
  induction l with
  | nil => simp
  | cons a t ih => simp [Nat.add_eq_zero, ih]

lemma nat_le_sum_of_mem {l : List ℕ} {x : ℕ} (h : x ∈ l) : x ≤ l.sum := by
  induction l with
  | nil => simp at h
  | cons a t ih =>
    rcases List.mem_cons.mp h with rfl | h'
    · simp
    · calc x ≤ t.sum := ih h'
        _ ≤ a + t.sum := Nat.le_add_left _ _

lemma indicator_range_sum (k b : ℕ) (hb : b < k) :
    ((List.range k).map (fun j => if b == j then (1 : ℕ) else 0)).sum = 1 := by
  induction k with
  | zero => omega
  | succ k ih =>
    rw [List.range_succ, List.map_append, List.sum_append]
    by_cases hbk : b = k
    · have hz : ((List.range k).map (fun j => if b == j then (1 : ℕ) else 0)).sum = 0 := by
        rw [nat_sum_zero_iff]
        intro x hx
        rcases List.mem_map.mp hx with ⟨j, hj, rfl⟩
        have hjk : j < k := List.mem_range.mp hj
        have hne : (b == j) = false := by rw [beq_eq_false_iff_ne]; omega
        rw [hne]
        rfl
      rw [hz]
      have hbt : (b == k) = true := by rwa [beq_iff_eq]
      simp only [List.map_cons, List.map_nil, List.sum_cons, List.sum_nil]
      rw [hbt]
      simp
    · have hb' : b < k := by omega
      rw [ih hb']
      have hbf : (b == k) = false := by rw [beq_eq_false_iff_ne]; exact hbk
      simp only [List.map_cons, List.map_nil, List.sum_cons, List.sum_nil]
      rw [hbf]
      simp

lemma countP_range_split (i k : ℕ) (l : List (ℕ × ℕ)) (hl : ∀ p ∈ l, p.2 < k) :
    ((List.range k).map (fun j => l.countP (fun p => p.1 == i && p.2 == j))).sum =
      l.countP (fun p => p.1 == i) := by
  induction l with
  | nil => simp [List.countP_nil]
  | cons q t ih =>
    have ht : ∀ p ∈ t, p.2 < k := fun p hp => hl p (List.mem_cons_of_mem _ hp)
    have hq : q.2 < k := hl q (List.mem_cons_self _ _)
    simp only [List.countP_cons]
    rw [← ih ht]
    by_cases hqi : q.1 = i
    · have hqt : (q.1 == i) = true := by rwa [beq_iff_eq]
      have h1 : ((List.range k).map (fun j => t.countP (fun p => p.1 == i && p.2 == j) +
            if (q.1 == i && q.2 == j) = true then 1 else 0)) =
          ((List.range k).map (fun j => t.countP (fun p => p.1 == i && p.2 == j) +
            (if (q.2 == j) = true then (1:ℕ) else 0))) := by
        apply List.map_congr_left
        intro j _
        rw [hqt, Bool.true_and]
      rw [h1]
      have h2 : ∀ (r : List ℕ), ((r.map (fun j => t.countP (fun p => p.1 == i && p.2 == j) +
            (if (q.2 == j) = true then (1:ℕ) else 0)))).sum =
          ((r.map (fun j => t.countP (fun p => p.1 == i && p.2 == j))).sum +
            ((r.map (fun j => if (q.2 == j) = true then (1:ℕ) else 0))).sum) := by
        intro r
        induction r with
        | nil => simp
        | cons a s ihr => simp only [List.map_cons, List.sum_cons, ihr]; omega
      rw [h2, indicator_range_sum k q.2 hq, hqt]
      simp
    · have hqf : (q.1 == i) = false := by rw [beq_eq_false_iff_ne]; exact hqi
      simp [hqf]

lemma get?_eq_some_getD {α : Type} (l : List α) (i : ℕ) (d : α) (h : i < l.length) :
    l.get? i = some (l.getD i d) := by
  induction l generalizing i with
  | nil => simp at h
  | cons a t ih =>
    cases i with
    | zero => rfl
    | succ n => exact ih n (by simpa using h)

lemma argmaxAux_idx_lt (l : List ℚ) : ∀ (i bi : ℕ) (bv : ℚ), bi < i →
    (argmaxAux l i bi bv).1 < i + l.length := by
  induction l with
  | nil => intro i bi bv h; simpa [argmaxAux] using h
  | cons x xs ih =>
    intro i bi bv h
    simp only [argmaxAux]
    by_cases hc : bv < x
    · rw [if_pos hc]
      have := ih (i + 1) i x (Nat.lt_succ_self i)
      simpa [Nat.add_comm, Nat.add_left_comm, Nat.add_assoc] using this
    · rw [if_neg hc]
      have := ih (i + 1) bi bv (Nat.lt_succ_of_lt h)
      simpa [Nat.add_comm, Nat.add_left_comm, Nat.add_assoc] using this

lemma argmaxIdx_lt (l : List ℚ) (h : l ≠ []) : argmaxIdx l < l.length := by
  cases l with
  | nil => exact absurd rfl h
  | cons x xs =>
    have := argmaxAux_idx_lt xs 1 0 x (Nat.zero_lt_one)
    simpa [argmaxIdx, Nat.add_comm] using this

lemma argmaxAux_le_val (l : List ℚ) : ∀ (i bi : ℕ) (bv : ℚ),
    bv ≤ (argmaxAux l i bi bv).2 ∧ ∀ y ∈ l, y ≤ (argmaxAux l i bi bv).2 := by
  induction l with
  | nil => intro i bi bv; simp [argmaxAux]
  | cons x xs ih =>
    intro i bi bv
    simp only [argmaxAux]
    by_cases hc : bv < x
    · rw [if_pos hc]
      obtain ⟨h1, h2⟩ := ih (i + 1) i x
      refine ⟨le_of_lt (lt_of_lt_of_le hc h1), ?_⟩
      intro y hy
      rcases List.mem_cons.mp hy with rfl | hy'
      · exact h1
      · exact h2 y hy'
    · rw [if_neg hc]
      obtain ⟨h1, h2⟩ := ih (i + 1) bi bv
      refine ⟨h1, ?_⟩
      intro y hy
      rcases List.mem_cons.mp hy with rfl | hy'
      · exact le_trans (le_of_not_lt hc) h1
      · exact h2 y hy'

lemma argmaxAux_val_at_idx (l : List ℚ) : ∀ (i bi : ℕ) (bv : ℚ),
    ((argmaxAux l i bi bv).1 = bi ∧ (argmaxAux l i bi bv).2 = bv) ∨
    (∃ j, j < l.length ∧ (argmaxAux l i bi bv).1 = i + j ∧
      (argmaxAux l i bi bv).2 = l.getD j 0) := by
  induction l with
  | nil => intro i bi bv; left; simp [argmaxAux]
  | cons x xs ih =>
    intro i bi bv
    simp only [argmaxAux]
    by_cases hc : bv < x
    · rw [if_pos hc]
      rcases ih (i + 1) i x with ⟨h1, h2⟩ | ⟨j, hj, h1, h2⟩
      · right; exact ⟨0, Nat.succ_pos _, by simpa using h1, by simpa using h2⟩
      · right
        refine ⟨j + 1, by simpa using Nat.succ_lt_succ hj, ?_, ?_⟩
        · rw [h1]; omega
        · simpa using h2
    · rw [if_neg hc]
      rcases ih (i + 1) bi bv with ⟨h1, h2⟩ | ⟨j, hj, h1, h2⟩
      · left; exact ⟨h1, h2⟩
      · right
        refine ⟨j + 1, by simpa using Nat.succ_lt_succ hj, ?_, ?_⟩
        · rw [h1]; omega
        · simpa using h2

lemma argmaxIdx_spec (l : List ℚ) (h : l ≠ []) :
    argmaxIdx l < l.length ∧ ∀ y ∈ l, y ≤ l.getD (argmaxIdx l) 0 := by
  cases l with
  | nil => exact absurd rfl h
  | cons x xs =>
    refine ⟨argmaxIdx_lt _ h, ?_⟩
    have hval : (x :: xs).getD (argmaxIdx (x :: xs)) 0 = (argmaxAux xs 1 0 x).2 := by
      rcases argmaxAux_val_at_idx xs 1 0 x with ⟨h1, h2⟩ | ⟨j, hj, h1, h2⟩
      · simp [argmaxIdx, h1, h2]
      · simp only [argmaxIdx, h1, h2]
        have : 1 + j = j + 1 := Nat.add_comm 1 j
        rw [this]
        rfl
    rw [hval]
    intro y hy
    obtain ⟨h1, h2⟩ := argmaxAux_le_val xs 1 0 x
    rcases List.mem_cons.mp hy with rfl | hy'
    · exact h1
    · exact h2 y hy'

lemma argminNaNAux_idx_lt (l : List (Option ℚ)) : ∀ (i bi : ℕ) (bv : ℚ), bi < i →
    argminNaNAux l i bi bv < i + l.length := by
  induction l with
  | nil => intro i bi bv h; simpa [argminNaNAux] using h
  | cons x xs ih =>
    intro i bi bv h
    cases x with
    | none =>
      simp only [argminNaNAux, List.length_cons]
      omega
    | some v =>
      simp only [argminNaNAux]
      by_cases hc : v < bv
      · rw [if_pos hc]
        have := ih (i + 1) i v (Nat.lt_succ_self i)
        simpa [Nat.add_comm, Nat.add_left_comm, Nat.add_assoc] using this
      · rw [if_neg hc]
        have := ih (i + 1) bi bv (Nat.lt_succ_of_lt h)
        simpa [Nat.add_comm, Nat.add_left_comm, Nat.add_assoc] using this

lemma argminNaN_lt (l : List (Option ℚ)) (h : l ≠ []) : argminNaN l < l.length := by
  cases l with
  | nil => exact absurd rfl h
  | cons x xs =>
    cases x with
    | none =>
      simp [argminNaN]
    | some v =>
      have := argminNaNAux_idx_lt xs 1 0 v (Nat.zero_lt_one)
      simpa [argminNaN, Nat.add_comm] using this

/-! ### Core facts about the empirical transition matrix -/

lemma pairCountN_outTrans (labels : List ℕ) (i k : ℕ)
    (hl : ∀ v ∈ labels, v < k) :
    ((List.range k).map (fun j => pairCountN labels i j)).sum = outTransCount labels i := by
  unfold pairCountN outTransCount
  apply countP_range_split
  intro p hp
  have h2 : p.2 ∈ labels.tail := (List.of_mem_zip hp).2
  exact hl p.2 (List.mem_of_mem_tail h2)

lemma computeTransitionMatrix_length (k : ℕ) (labels : List ℕ) :
    (computeTransitionMatrix k labels).length = k := by
  simp [computeTransitionMatrix]

lemma computeTransitionMatrix_row (k : ℕ) (labels : List ℕ) (i : ℕ) (hi : i < k) :
    (computeTransitionMatrix k labels).get? i =
      some (((List.range k).map (fun j => pairCountN labels i j)).map
        (fun (c : ℕ) => (c : ℚ) /
          (if ((List.range k).map (fun j => pairCountN labels i j)).sum = 0 then 1
           else (((List.range k).map (fun j => pairCountN labels i j)).sum : ℚ)))) := by
  unfold computeTransitionMatrix
  rw [List.get?_map, List.get?_range hi]
  rfl

lemma computeTransitionMatrix_spec (k : ℕ) (labels : List ℕ)
    (hl : ∀ v ∈ labels, v < k) (i : ℕ) (hi : i < k) :
    ∃ row, (computeTransitionMatrix k labels).get? i = some row ∧
      row.length = k ∧
      (∀ x ∈ row, 0 ≤ x ∧ x ≤ 1) ∧
      (outTransCount labels i ≠ 0 → row.sum = 1) ∧
      (outTransCount labels i = 0 → row = List.replicate k (0 : ℚ)) := by
  set cnts : List ℕ := (List.range k).map (fun j => pairCountN labels i j) with hcnts
  have hsum : cnts.sum = outTransCount labels i := pairCountN_outTrans labels i k hl
  set g : ℚ := if cnts.sum = 0 then 1 else (cnts.sum : ℚ) with hg
  refine ⟨cnts.map (fun (c : ℕ) => (c : ℚ) / g), ?_, ?_, ?_, ?_, ?_⟩
  · rw [computeTransitionMatrix_row k labels i hi]
  · simp [hcnts]
  · intro x hx
    rcases List.mem_map.mp hx with ⟨c, hc, rfl⟩
    by_cases hz : cnts.sum = 0
    · have hc0 : c = 0 := (nat_sum_zero_iff cnts).mp hz c hc
      simp [hg, hz, hc0]
    · have hgpos : (0 : ℚ) < g := by
        rw [hg, if_neg hz]
        exact_mod_cast Nat.pos_of_ne_zero hz
      constructor
      · exact div_nonneg (by positivity) (le_of_lt hgpos)
      · rw [div_le_one hgpos]
        rw [hg, if_neg hz]
        exact_mod_cast nat_le_sum_of_mem hc
  · intro hne
    have hz : cnts.sum ≠ 0 := by rw [hsum]; exact hne
    have : (cnts.map (fun (c : ℕ) => (c : ℚ) / g)).sum = ((cnts.map (fun (c : ℕ) => (c : ℚ))).sum) / g :=
      sum_map_divQ cnts (fun (c : ℕ) => (c : ℚ)) g
    rw [this, ← Nat.cast_list_sum, hg, if_neg hz]
    exact div_self (by exact_mod_cast hz)
  · intro h0
    have hz : cnts.sum = 0 := by rw [hsum]; exact h0
    have hlen : (cnts.map (fun (c : ℕ) => (c : ℚ) / g)).length = k := by simp [hcnts]
    rw [List.eq_replicate_iff]
    refine ⟨hlen, ?_⟩
    intro b hb
    rcases List.mem_map.mp hb with ⟨c, hc, rfl⟩
    have hc0 : c = 0 := (nat_sum_zero_iff cnts).mp hz c hc
    simp [hc0]

/-! ### Unfolding of the well-formedness predicate -/

lemma WF_iff (m : MarketHMM) : WF m ↔
    1 ≤ m.n_states ∧
    (∀ T, m.transition_matrix_ = some T →
      T.length = m.n_states ∧ ∀ r ∈ T, r.length = m.n_states) ∧
    (∀ M, m.means_ = some M → M.length = m.n_states) ∧
    (∀ ll, m.last_labels = some ll → ∀ v ∈ ll, v < m.n_states) := by
  unfold WF WFb
  constructor
  · intro h
    simp only [Bool.and_eq_true, decide_eq_true_eq] at h
    obtain ⟨⟨⟨h1, h2⟩, h3⟩, h4⟩ := h
    refine ⟨h1, ?_, ?_, ?_⟩
    · intro T hT
      rw [hT] at h2
      simp only [Bool.and_eq_true, beq_iff_eq, List.all_eq_true] at h2
      exact ⟨h2.1, fun r hr => by have := h2.2 r hr; simpa using this⟩
    · intro M hM
      rw [hM] at h3
      simp only [beq_iff_eq] at h3
      exact h3
    · intro ll hll
      rw [hll] at h4
      simp only [List.all_eq_true, decide_eq_true_eq] at h4
      exact h4
  · rintro ⟨h1, h2, h3, h4⟩
    simp only [Bool.and_eq_true, decide_eq_true_eq]
    refine ⟨⟨⟨h1, ?_⟩, ?_⟩, ?_⟩
    · cases hT : m.transition_matrix_ with
      | none => rfl
      | some T =>
        obtain ⟨ha, hb⟩ := h2 T hT
        simp only [Bool.and_eq_true, beq_iff_eq, List.all_eq_true]
        exact ⟨ha, fun r hr => by simp [hb r hr]⟩
    · cases hM : m.means_ with
      | none => rfl
      | some M =>
        simp only [beq_iff_eq]
        exact h3 M hM
    · cases hll : m.last_labels with
      | none => rfl
      | some ll =>
        simp only [List.all_eq_true, decide_eq_true_eq]
        exact h4 ll hll

/-! ### Projection lemmas for `fit` -/

lemma fit_n_states (env : FitEnv) (m : MarketHMM) (X : List (List ℚ)) :
    (MarketHMM.fit env m X).n_states = m.n_states := by
  unfold MarketHMM.fit
  cases env.hmm m.n_states m.random_state X <;> rfl

lemma fit_random_state (env : FitEnv) (m : MarketHMM) (X : List (List ℚ)) :
    (MarketHMM.fit env m X).random_state = m.random_state := by
  unfold MarketHMM.fit
  cases env.hmm m.n_states m.random_state X <;> rfl

lemma fit_fallback_fields (env : FitEnv) (m : MarketHMM) (X : List (List ℚ))
    (h : (env.hmm m.n_states m.random_state X).isSuccess = false) :
    (MarketHMM.fit env m X).transition_matrix_ =
        some (computeTransitionMatrix m.n_states
          (fitLabels env m.n_states m.random_state X)) ∧
      (MarketHMM.fit env m X).means_ =
        some (fitMeans env m.n_states m.random_state X) ∧
      (MarketHMM.fit env m X).fallback = true ∧
      (MarketHMM.fit env m X).last_labels =
        some (fitLabels env m.n_states m.random_state X) := by
  unfold MarketHMM.fit
  cases hh : env.hmm m.n_states m.random_state X with
  | unavailable => exact ⟨rfl, rfl, rfl, rfl⟩
  | constructedFailed => exact ⟨rfl, rfl, rfl, rfl⟩
  | success T Mopt => rw [hh] at h; simp [HmmOutcome.isSuccess] at h

lemma fit_success_fields (env : FitEnv) (m : MarketHMM) (X : List (List ℚ))
    (T : List (List ℚ)) (Mopt : Option (List (List ℚ)))
    (h : env.hmm m.n_states m.random_state X = .success T Mopt) :
    (MarketHMM.fit env m X).transition_matrix_ = some T ∧
      (MarketHMM.fit env m X).means_ =
        some ((Mopt.getD (zerosMatrix m.n_states (numCols X))).map some) ∧
      (MarketHMM.fit env m X).fallback = false ∧
      (MarketHMM.fit env m X).model = true ∧
      (MarketHMM.fit env m X).last_labels = m.last_labels := by
  unfold MarketHMM.fit
  rw [h]
  exact ⟨rfl, rfl, rfl, rfl, rfl⟩

lemma fit_fallback_flag (env : FitEnv) (m : MarketHMM) (X : List (List ℚ))
    (h : (env.hmm m.n_states m.random_state X).isSuccess = false) :
    (MarketHMM.fit env m X).fallback = true :=
  (fit_fallback_fields env m X h).2.2.1

lemma fitLabels_length (env : FitEnv) (k : ℕ) (seed : Option ℤ) (X : List (List ℚ))
    (hgm : ∀ ls ms, env.gm k seed X = some (ls, ms) → ls.length = X.length)
    (hkm : ∀ ls, env.km k seed X = some ls → ls.length = X.length)
    (hrand : (env.rand seed k X.length).length = X.length) :
    (fitLabels env k seed X).length = X.length := by
  unfold fitLabels
  cases hg : env.gm k seed X with
  | some p => exact hgm p.1 p.2 (by rw [hg])
  | none =>
    cases hk : env.km k seed X with
    | some ls => exact hkm ls hk
    | none => exact hrand

lemma fitLabels_lt (env : FitEnv) (k : ℕ) (seed : Option ℤ) (X : List (List ℚ))
    (hgm : ∀ ls ms, env.gm k seed X = some (ls, ms) → ∀ v ∈ ls, v < k)
    (hkm : ∀ ls, env.km k seed X = some ls → ∀ v ∈ ls, v < k)
    (hrand : ∀ v ∈ env.rand seed k X.length, v < k) :
    ∀ v ∈ fitLabels env k seed X, v < k := by
  unfold fitLabels
  cases hg : env.gm k seed X with
  | some p => exact hgm p.1 p.2 (by rw [hg])
  | none =>
    cases hk : env.km k seed X with
    | some ls => exact hkm ls hk
    | none => exact hrand

/-! ### Claim C1 -/

/-- Environment for exercising claim C1: hmmlearn unavailable, the
GaussianMixture tier assigns every row to cluster 0. -/
def envC1 : FitEnv :=
  { hmm := fun _ _ _ => .unavailable
    gm := fun _ _ X => some (List.replicate X.length 0, [[1, 1], [1, 1]])
    km := fun _ _ _ => none
    rand := fun _ _ n => List.replicate n 0 }

/-- C1 (counterexample): fitting the 2-identical-row matrix `[[1,1],[1,1]]`
through the mixture fallback tier (both rows labelled 0) yields
`transitionMatrix = [[1,0],[0,0]]`: the row of state 1, which has zero
observed outgoing transitions, is all zeros — it does not sum to 1 and is
not the uniform row `[1/2, 1/2]` the claim promises. -/
theorem C1_counterexample :
    (MarketHMM.fit envC1 (mk0 2 (some 0)) [[1, 1], [1, 1]]).transition_matrix_ =
        some [[1, 0], [0, 0]] ∧
      ¬ (([(0 : ℚ), 0]).sum = 1) ∧
      ¬ ([(0 : ℚ), 0] = List.replicate 2 ((1 : ℚ) / 2)) := by
  refine ⟨?_, by norm_num, by norm_num [List.replicate]⟩
  norm_num [MarketHMM.fit, envC1, mk0, fitLabels, computeTransitionMatrix, pairCountN,
    List.range_succ, List.countP, List.countP.go]
  simp

/-- C1 (amended): after `fit` completes via a fallback tier, the transition
matrix is `stateCount × stateCount` with all entries in `[0, 1]`; every row
of a state with at least one observed outgoing transition sums to exactly 1,
while a state with zero observed outgoing transitions gets an all-zero row
(the guard `row_sums[row_sums == 0] = 1` prevents NaN or a division error,
so a matrix of two identical rows does not raise — but the zero row is not
uniform and does not sum to 1). -/
theorem C1_fallback_transition_rows (env : FitEnv) (m : MarketHMM) (X : List (List ℚ))
    (hfb : (env.hmm m.n_states m.random_state X).isSuccess = false)
    (hgm : ∀ ls ms, env.gm m.n_states m.random_state X = some (ls, ms) →
      ∀ v ∈ ls, v < m.n_states)
    (hkm : ∀ ls, env.km m.n_states m.random_state X = some ls → ∀ v ∈ ls, v < m.n_states)
    (hrand : ∀ v ∈ env.rand m.random_state m.n_states X.length, v < m.n_states) :
    ∃ T, (MarketHMM.fit env m X).transition_matrix_ = some T ∧
      T.length = m.n_states ∧
      ∀ i, i < m.n_states →
        ∃ row, T.get? i = some row ∧ row.length = m.n_states ∧
          (∀ x ∈ row, 0 ≤ x ∧ x ≤ 1) ∧
          (outTransCount (fitLabels env m.n_states m.random_state X) i ≠ 0 →
            row.sum = 1) ∧
          (outTransCount (fitLabels env m.n_states m.random_state X) i = 0 →
            row = List.replicate m.n_states (0 : ℚ)) := by
  obtain ⟨hT, _, _, _⟩ := fit_fallback_fields env m X hfb
  refine ⟨_, hT, computeTransitionMatrix_length _ _, ?_⟩
  intro i hi
  exact computeTransitionMatrix_spec m.n_states
    (fitLabels env m.n_states m.random_state X)
    (fitLabels_lt env m.n_states m.random_state X hgm hkm hrand) i hi

/-- Witness for C1 (amended), at the concrete fallback fit of
`[[1,1],[1,1]]` used in the counterexample. -/
theorem C1_fallback_transition_rows_witness :
    ∃ T, (MarketHMM.fit envC1 (mk0 2 (some 0)) [[1, 1], [1, 1]]).transition_matrix_ =
        some T ∧
      T.length = (mk0 2 (some 0)).n_states ∧
      ∀ i, i < (mk0 2 (some 0)).n_states →
        ∃ row, T.get? i = some row ∧ row.length = (mk0 2 (some 0)).n_states ∧
          (∀ x ∈ row, 0 ≤ x ∧ x ≤ 1) ∧
          (outTransCount (fitLabels envC1 (mk0 2 (some 0)).n_states
              (mk0 2 (some 0)).random_state [[1, 1], [1, 1]]) i ≠ 0 → row.sum = 1) ∧
          (outTransCount (fitLabels envC1 (mk0 2 (some 0)).n_states
              (mk0 2 (some 0)).random_state [[1, 1], [1, 1]]) i = 0 →
            row = List.replicate (mk0 2 (some 0)).n_states (0 : ℚ)) := by
  apply C1_fallback_transition_rows envC1 (mk0 2 (some 0)) [[1, 1], [1, 1]]
  · rfl
  · intro ls ms h
    simp only [envC1, mk0] at h
    rcases h with ⟨rfl, rfl⟩
    intro v hv
    rcases List.eq_of_mem_replicate hv with rfl
    decide
  · intro ls h
    simp [envC1] at h
  · intro v hv
    simp only [envC1, mk0] at hv
    rcases List.eq_of_mem_replicate hv with rfl
    decide

/-! ### Claim C2 -/

lemma nearestOrZeros_spec (m : MarketHMM) (X : List (List ℚ)) (hwf : WF m) :
    (nearestOrZeros m X).length = X.length ∧
      ∀ v ∈ nearestOrZeros m X, v < m.n_states := by
  obtain ⟨hk, _, hM, _⟩ := (WF_iff m).mp hwf
  unfold nearestOrZeros
  cases hm : m.means_ with
  | none =>
    refine ⟨List.length_replicate _ _, ?_⟩
    intro v hv
    rcases List.eq_of_mem_replicate hv with rfl
    omega
  | some M =>
    have hMl := hM M hm
    refine ⟨List.length_map _ _, ?_⟩
    intro v hv
    rcases List.mem_map.mp hv with ⟨x, _, rfl⟩
    have hne : (M.map (fun mu => mu.map (sqDist x))) ≠ [] := by
      intro hnil
      have := congrArg List.length hnil
      simp [hMl] at this
      omega
    have := argminNaN_lt (M.map (fun mu => mu.map (sqDist x))) hne
    rwa [List.length_map, hMl] at this

/-- C2: for every well-formed model (fitted or not, `stateCount ≥ 1`,
including fallback-fitted models whose `stateMeans` contain NaN rows from
an empty tier-B cluster) and every well-formed feature matrix `X`,
`predict_states(X)` returns — without raising — a label sequence of length
exactly `X`'s row count with every value in `[0, stateCount)`, provided the
external hmmlearn decoder, when it is consulted and does not raise, honours
its documented contract of returning one label in `[0, n_components)` per
row.  In the nearest-mean branch a NaN mean row yields a NaN distance and
`np.argmin` picks the first NaN's index, still a valid state index. -/
theorem C2_predict_states_length_range (m : MarketHMM) (ext : Option (List ℕ))
    (X : List (List ℚ))
    (hwf : WF m)
    (hX : ∀ row ∈ X, row.length = numCols X)
    (hext : ∀ r, ext = some r → r.length = X.length ∧ ∀ v ∈ r, v < m.n_states) :
    (predict_states m ext X).length = X.length ∧
      ∀ v ∈ predict_states m ext X, v < m.n_states := by
  obtain ⟨hk, _, _, hll⟩ := (WF_iff m).mp hwf
  unfold predict_states
  split
  · rename_i r hcall
    have hr : ext = some r := by
      by_cases hb : (!m.fallback && m.model) = true
      · rwa [if_pos hb] at hcall
      · rw [if_neg hb] at hcall
        exact absurd hcall (by simp)
    exact hext r hr
  · rename_i hcall
    split
    · rename_i ll hlab
      split
      · rename_i hlen
        exact ⟨hlen, hll ll hlab⟩
      · exact nearestOrZeros_spec m X hwf
    · exact nearestOrZeros_spec m X hwf

/-- Environment shared by C2's witness and claim C5: hmmlearn and
GaussianMixture unavailable, the KMeans tier assigns every row to cluster 0
(so cluster 1 is left empty and its mean row is NaN). -/
def envC5 : FitEnv :=
  { hmm := fun _ _ _ => .unavailable
    gm := fun _ _ _ => none
    km := fun _ _ X => some (List.replicate X.length 0)
    rand := fun _ _ n => List.replicate n 0 }

/-- The NaN-argmin path concretely: after the tier-B fit of `[[1,1],[1,1]]`
(state 1's mean row is NaN), predicting a 1-row matrix goes through the
nearest-mean branch, and `np.argmin` over the distances `[32, NaN]` returns
the first NaN's index, 1. -/
lemma predict_states_nan_means_first_nan_index :
    predict_states (MarketHMM.fit envC5 (mk0 2 (some 0)) [[1, 1], [1, 1]]) none
      [[5, 5]] = [1] := by
  decide

/-- Witness for C2, exercising the NaN-means case: the tier-B fit of
`[[1,1],[1,1]]` leaves state 1 with a NaN mean row; querying the
different-length matrix `[[5,5]]` takes the nearest-mean branch, where the
NaN distance sends `np.argmin` to index 1 — the result still has the right
length and every label below `stateCount`. -/
theorem C2_predict_states_length_range_witness :
    (predict_states (MarketHMM.fit envC5 (mk0 2 (some 0)) [[1, 1], [1, 1]]) none
        [[5, 5]]).length = ([[(5 : ℚ), 5]]).length ∧
      ∀ v ∈ predict_states (MarketHMM.fit envC5 (mk0 2 (some 0)) [[1, 1], [1, 1]])
          none [[5, 5]],
        v < (MarketHMM.fit envC5 (mk0 2 (some 0)) [[1, 1], [1, 1]]).n_states := by
  apply C2_predict_states_length_range
  · exact rfl
  · intro row hrow
    rcases List.mem_singleton.mp hrow with rfl
    rfl
  · intro r h
    cases h

/-! ### Claim C3 -/

/-- C3: a freshly constructed model (no `fit` call) answers every
`next_state_probabilities` query, without raising, with the uniform vector
of length `stateCount` whose entries are all `1/stateCount`, and answers
`expected_next_return` with `0.0`. -/
theorem C3_unfit_defaults (k : ℕ) (seed : Option ℤ) (c ri : ℕ) (hc : c < k) :
    next_state_probabilities (mk0 k seed) c =
        some (List.replicate k ((1 : ℚ) / (k : ℚ))) ∧
      expected_next_return (mk0 k seed) c ri = some 0 :=
  ⟨rfl, rfl⟩

/-- Witness for C3 at `stateCount = 2`, state 0, return dimension 0. -/
theorem C3_unfit_defaults_witness :
    next_state_probabilities (mk0 2 none) 0 =
        some (List.replicate 2 ((1 : ℚ) / (2 : ℚ))) ∧
      expected_next_return (mk0 2 none) 0 0 = some 0 :=
  C3_unfit_defaults 2 none 0 0 (by decide)

/-! ### Claim C4 -/

lemma next_state_probabilities_some (m : MarketHMM) (c : ℕ)
    (hwf : WF m) (hc : c < m.n_states) :
    ∃ p, next_state_probabilities m c = some p ∧ p.length = m.n_states := by
  obtain ⟨_, hT, _, _⟩ := (WF_iff m).mp hwf
  unfold next_state_probabilities
  cases hm : m.transition_matrix_ with
  | none => exact ⟨_, rfl, List.length_replicate _ _⟩
  | some T =>
    obtain ⟨hTl, hTr⟩ := hT T hm
    have hcT : c < T.length := by omega
    refine ⟨T.getD c [], get?_eq_some_getD T c [] hcT, ?_⟩
    have hmem : T.getD c [] ∈ T := List.get?_mem (get?_eq_some_getD T c [] hcT)
    exact hTr _ hmem

lemma colOpt_map_some (M : List (List ℚ)) (ri : ℕ) (h : ∀ row ∈ M, ri < row.length) :
    colOpt (M.map some) ri = some (M.map (fun row => row.getD ri 0)) := by
  induction M with
  | nil => rfl
  | cons r t ih =>
    have hr : r.get? ri = some (r.getD ri 0) :=
      get?_eq_some_getD r ri 0 (h r (List.mem_cons_self _ _))
    have ht : colOpt (t.map some) ri = some (t.map (fun row => row.getD ri 0)) :=
      ih (fun row hrow => h row (List.mem_cons_of_mem _ hrow))
    simp only [List.map_cons, colOpt, Option.some_bind, hr, ht]

lemma expected_next_return_of_some (m : MarketHMM) (c ri : ℕ) (p : List ℚ)
    (M : List (Option (List ℚ)))
    (hp : next_state_probabilities m c = some p) (hM : m.means_ = some M) :
    expected_next_return m c ri =
      (match colOpt M ri with
       | none => none
       | some em => some (dotQ p em)) := by
  unfold expected_next_return
  rw [hp, hM]

lemma expected_next_return_of_none (m : MarketHMM) (c ri : ℕ) (p : List ℚ)
    (hp : next_state_probabilities m c = some p) (hM : m.means_ = none) :
    expected_next_return m c ri = some 0 := by
  unfold expected_next_return
  rw [hp, hM]

/-- C4: on a model whose `stateMeans` is set (to finite rows), a valid
current state and a valid return dimension, `expected_next_return` is
exactly the dot product of the `next_state_probabilities` vector with
column `returnDimension` of `stateMeans`; when `stateMeans` is unset it is
`0.0`. -/
theorem C4_expected_return_dot (m : MarketHMM) (M : List (List ℚ)) (c ri : ℕ)
    (hwf : WF m) (hc : c < m.n_states) :
    (m.means_ = some (M.map some) → (∀ row ∈ M, ri < row.length) →
      ∃ p, next_state_probabilities m c = some p ∧
        expected_next_return m c ri =
          some (dotQ p (M.map (fun row => row.getD ri 0)))) ∧
    (m.means_ = none → expected_next_return m c ri = some 0) := by
  obtain ⟨p, hp, _⟩ := next_state_probabilities_some m c hwf hc
  constructor
  · intro hM hri
    refine ⟨p, hp, ?_⟩
    rw [expected_next_return_of_some m c ri p (M.map some) hp hM,
      colOpt_map_some M ri hri]
  · intro hM
    exact expected_next_return_of_none m c ri p hp hM

/-- Witness for C4 on a concrete fitted model. -/
def mC4 : MarketHMM :=
  { mk0 2 none with
    transition_matrix_ := some [[1 / 4, 3 / 4], [1, 0]]
    means_ := some ([[3, 4], [5, 6]].map some) }

/-- Witness for C4: on `mC4`, state 0, dimension 1, `expected_next_return`
is the dot product of row 0 of the transition matrix with column 1 of the
means. -/
theorem C4_expected_return_dot_witness :
    ∃ p, next_state_probabilities mC4 0 = some p ∧
      expected_next_return mC4 0 1 =
        some (dotQ p (([[(3 : ℚ), 4], [5, 6]]).map (fun row => row.getD 1 0))) :=
  (C4_expected_return_dot mC4 [[3, 4], [5, 6]] 0 1 rfl (by decide)).1 rfl
    (by
      intro row hrow
      rcases List.mem_cons.mp hrow with rfl | hrow2
      · decide
      · rcases List.mem_singleton.mp hrow2 with rfl
        decide)

/-! ### Claim C5 -/

/-- C5 (counterexample): fitting `[[1,1],[1,1]]` through the centroid
(KMeans) tier with both rows in cluster 0 leaves state 1 with no assigned
rows; its `stateMeans` row is the NaN row (`none`), not the zero vector the
claim promises. -/
theorem C5_counterexample :
    (MarketHMM.fit envC5 (mk0 2 (some 0)) [[1, 1], [1, 1]]).means_ =
        some [some [1, 1], none] ∧
      (none : Option (List ℚ)) ≠ some (List.replicate 2 (0 : ℚ)) := by
  constructor
  · norm_num [MarketHMM.fit, envC5, mk0, fitMeans, tierBMeans, groupMean, assignedRows,
      colMean, numCols, List.range_succ, List.replicate]
  · simp

/-- C5 (amended): when `fit` falls through to the centroid-clustering tier,
`stateMeans` is the list of per-state empirical group means, of length
exactly `stateCount`; a state with at least one assigned row gets the
column-wise mean of its rows, while a state with no assigned rows gets the
NaN row (`none`) produced by `mean` over an empty slice — not a zero
vector. -/
theorem C5_tierB_empty_group_nan (env : FitEnv) (m : MarketHMM) (X : List (List ℚ))
    (ls : List ℕ)
    (hfb : (env.hmm m.n_states m.random_state X).isSuccess = false)
    (hgm : env.gm m.n_states m.random_state X = none)
    (hkm : env.km m.n_states m.random_state X = some ls) :
    (MarketHMM.fit env m X).means_ = some (tierBMeans m.n_states X ls) ∧
      (tierBMeans m.n_states X ls).length = m.n_states ∧
      ∀ s, s < m.n_states →
        (tierBMeans m.n_states X ls).get? s = some (groupMean X ls s) ∧
        (assignedRows X ls s = [] → groupMean X ls s = none) ∧
        (assignedRows X ls s ≠ [] →
          groupMean X ls s = some (colMean (assignedRows X ls s) (numCols X))) := by
  obtain ⟨_, hM, _, _⟩ := fit_fallback_fields env m X hfb
  have hfm : fitMeans env m.n_states m.random_state X = tierBMeans m.n_states X ls := by
    unfold fitMeans
    rw [hgm, hkm]
  refine ⟨by rw [hM, hfm], by simp [tierBMeans], ?_⟩
  intro s hs
  refine ⟨?_, ?_, ?_⟩
  · unfold tierBMeans
    rw [List.get?_map, List.get?_range hs]
    rfl
  · intro hemp
    unfold groupMean
    rw [hemp]
    rfl
  · intro hne
    unfold groupMean
    rw [if_neg (by simpa [List.isEmpty_iff] using hne)]

/-- Witness for C5 (amended) at the counterexample's concrete fit. -/
theorem C5_tierB_empty_group_nan_witness :
    (MarketHMM.fit envC5 (mk0 2 (some 0)) [[1, 1], [1, 1]]).means_ =
        some (tierBMeans (mk0 2 (some 0)).n_states [[1, 1], [1, 1]]
          (List.replicate ([[(1 : ℚ), 1], [1, 1]]).length 0)) ∧
      (tierBMeans (mk0 2 (some 0)).n_states [[1, 1], [1, 1]]
          (List.replicate ([[(1 : ℚ), 1], [1, 1]]).length 0)).length =
        (mk0 2 (some 0)).n_states ∧
      ∀ s, s < (mk0 2 (some 0)).n_states →
        (tierBMeans (mk0 2 (some 0)).n_states [[1, 1], [1, 1]]
            (List.replicate ([[(1 : ℚ), 1], [1, 1]]).length 0)).get? s =
          some (groupMean [[1, 1], [1, 1]]
            (List.replicate ([[(1 : ℚ), 1], [1, 1]]).length 0) s) ∧
        (assignedRows [[1, 1], [1, 1]]
            (List.replicate ([[(1 : ℚ), 1], [1, 1]]).length 0) s = [] →
          groupMean [[1, 1], [1, 1]]
            (List.replicate ([[(1 : ℚ), 1], [1, 1]]).length 0) s = none) ∧
        (assignedRows [[1, 1], [1, 1]]
            (List.replicate ([[(1 : ℚ), 1], [1, 1]]).length 0) s ≠ [] →
          groupMean [[1, 1], [1, 1]]
            (List.replicate ([[(1 : ℚ), 1], [1, 1]]).length 0) s =
            some (colMean (assignedRows [[1, 1], [1, 1]]
              (List.replicate ([[(1 : ℚ), 1], [1, 1]]).length 0) s)
              (numCols [[1, 1], [1, 1]]))) :=
  C5_tierB_empty_group_nan envC5 (mk0 2 (some 0)) [[1, 1], [1, 1]]
    (List.replicate ([[(1 : ℚ), 1], [1, 1]]).length 0) rfl rfl rfl

/-! ### Claim C6 -/

/-- C6: a model fitted via a fallback tier on `X0` caches the decoded
labels; `predict_states` on ANY matrix `X` with the same row count — even
one with entirely different content — returns those cached labels verbatim
instead of recomputing (the reuse check looks only at the length). -/
theorem C6_cached_labels_reused (env : FitEnv) (m : MarketHMM)
    (X0 X : List (List ℚ)) (ext : Option (List ℕ))
    (hfb : (env.hmm m.n_states m.random_state X0).isSuccess = false)
    (hgm : ∀ ls ms, env.gm m.n_states m.random_state X0 = some (ls, ms) →
      ls.length = X0.length)
    (hkm : ∀ ls, env.km m.n_states m.random_state X0 = some ls → ls.length = X0.length)
    (hrand : (env.rand m.random_state m.n_states X0.length).length = X0.length)
    (hlen : X.length = X0.length) :
    predict_states (MarketHMM.fit env m X0) ext X =
      fitLabels env m.n_states m.random_state X0 := by
  obtain ⟨_, _, hfall, hlast⟩ := fit_fallback_fields env m X0 hfb
  have hL : (fitLabels env m.n_states m.random_state X0).length = X.length := by
    rw [fitLabels_length env m.n_states m.random_state X0 hgm hkm hrand, hlen]
  unfold predict_states
  rw [hfall, hlast]
  simp only [Bool.not_true, Bool.false_and, Bool.false_eq_true, if_false]
  rw [if_pos hL]

/-- Environment for the C6 witness: mixture fallback labelling row `t` with
`t % 2`. -/
def envC6 : FitEnv :=
  { hmm := fun _ _ _ => .unavailable
    gm := fun _ _ X => some ((List.range X.length).map (fun t => t % 2), [[0, 0], [1, 1]])
    km := fun _ _ _ => none
    rand := fun _ _ n => List.replicate n 0 }

/-- Witness for C6: after a fallback fit on a 3-row matrix, querying a
DIFFERENT 3-row matrix returns the cached labels `[0, 1, 0]`. -/
theorem C6_cached_labels_reused_witness :
    predict_states (MarketHMM.fit envC6 (mk0 2 (some 0)) [[0, 0], [1, 1], [0, 0]])
        none [[9, 9], [8, 8], [7, 7]] =
      fitLabels envC6 (mk0 2 (some 0)).n_states (mk0 2 (some 0)).random_state
        [[0, 0], [1, 1], [0, 0]] := by
  apply C6_cached_labels_reused envC6 (mk0 2 (some 0))
    [[0, 0], [1, 1], [0, 0]] [[9, 9], [8, 8], [7, 7]] none
  · rfl
  · intro ls ms h
    simp only [envC6, mk0] at h
    rcases h with ⟨rfl, rfl⟩
    simp
  · intro ls h
    simp [envC6] at h
  · rfl
  · rfl

/-! ### Claim C7 -/

/-- Environment for the C7 counterexample: the primary hmmlearn tier
succeeds exactly on 1-row matrices; on other matrices it is unavailable and
the mixture tier labels every row 0. -/
def envC7 : FitEnv :=
  { hmm := fun _ _ X =>
      if X.length = 1 then .success [[1]] (some [[0, 0]]) else .unavailable
    gm := fun _ _ X => some (List.replicate X.length 0, [[0, 0]])
    km := fun _ _ _ => none
    rand := fun _ _ n => List.replicate n 0 }

/-- C7 (counterexample): fit a 2-row matrix via a fallback tier (caching
labels `[0, 0]`), then re-fit a 1-row matrix via the primary tier: the
cached decoded states still hold the first matrix's labels, whereas a fresh
fit of the second matrix holds none — a value derived from the first matrix
remains observable after the second fit. -/
theorem C7_counterexample :
    (MarketHMM.fit envC7 (MarketHMM.fit envC7 (mk0 1 (some 0)) [[1, 1], [2, 2]])
        [[5, 5]]).last_labels = some [0, 0] ∧
      (MarketHMM.fit envC7 (mk0 1 (some 0)) [[5, 5]]).last_labels = none := by
  constructor
  · norm_num [MarketHMM.fit, envC7, mk0, fitLabels, List.replicate]
  · norm_num [MarketHMM.fit, envC7, mk0]

/-- C7 (amended): a second `fit` on the same instance replaces
`transitionMatrix`, `stateMeans` and the estimation-mode flag with exactly
the values a fresh fit of the second matrix would produce; the cached
decoded states are likewise replaced whenever the second fit completes via
a fallback tier, but a second fit that succeeds via the primary tier leaves
the first fit's cached decoded states in place. -/
theorem C7_refit_replaces_state (env : FitEnv) (k : ℕ) (seed : Option ℤ)
    (X1 X2 : List (List ℚ)) :
    (MarketHMM.fit env (MarketHMM.fit env (mk0 k seed) X1) X2).transition_matrix_ =
        (MarketHMM.fit env (mk0 k seed) X2).transition_matrix_ ∧
      (MarketHMM.fit env (MarketHMM.fit env (mk0 k seed) X1) X2).means_ =
        (MarketHMM.fit env (mk0 k seed) X2).means_ ∧
      (MarketHMM.fit env (MarketHMM.fit env (mk0 k seed) X1) X2).fallback =
        (MarketHMM.fit env (mk0 k seed) X2).fallback ∧
      ((env.hmm k seed X2).isSuccess = false →
        (MarketHMM.fit env (MarketHMM.fit env (mk0 k seed) X1) X2).last_labels =
          (MarketHMM.fit env (mk0 k seed) X2).last_labels) := by
  set m1 := MarketHMM.fit env (mk0 k seed) X1 with hm1
  have hn : m1.n_states = k := fit_n_states env (mk0 k seed) X1
  have hs : m1.random_state = seed := fit_random_state env (mk0 k seed) X1
  cases hh : env.hmm k seed X2 with
  | success T Mopt =>
    have h1 := fit_success_fields env m1 X2 T Mopt (by rw [hn, hs, hh])
    have h2 := fit_success_fields env (mk0 k seed) X2 T Mopt (by rw [show (mk0 k seed).n_states = k from rfl, show (mk0 k seed).random_state = seed from rfl, hh])
    refine ⟨?_, ?_, ?_, ?_⟩
    · rw [h1.1, h2.1]
    · rw [h1.2.1, h2.2.1, hn, show (mk0 k seed).n_states = k from rfl]
    · rw [h1.2.2.1, h2.2.2.1]
    · intro hfalse
      simp [HmmOutcome.isSuccess] at hfalse
  | unavailable =>
    have h1 := fit_fallback_fields env m1 X2 (by rw [hn, hs, hh]; rfl)
    have h2 := fit_fallback_fields env (mk0 k seed) X2 (by rw [show (mk0 k seed).n_states = k from rfl, show (mk0 k seed).random_state = seed from rfl, hh]; rfl)
    refine ⟨?_, ?_, ?_, fun _ => ?_⟩
    · rw [h1.1, h2.1, hn, hs]
      rfl
    · rw [h1.2.1, h2.2.1, hn, hs]
      rfl
    · rw [h1.2.2.1, h2.2.2.1]
    · rw [h1.2.2.2, h2.2.2.2, hn, hs]
      rfl
  | constructedFailed =>
    have h1 := fit_fallback_fields env m1 X2 (by rw [hn, hs, hh]; rfl)
    have h2 := fit_fallback_fields env (mk0 k seed) X2 (by rw [show (mk0 k seed).n_states = k from rfl, show (mk0 k seed).random_state = seed from rfl, hh]; rfl)
    refine ⟨?_, ?_, ?_, fun _ => ?_⟩
    · rw [h1.1, h2.1, hn, hs]
      rfl
    · rw [h1.2.1, h2.2.1, hn, hs]
      rfl
    · rw [h1.2.2.1, h2.2.2.1]
    · rw [h1.2.2.2, h2.2.2.2, hn, hs]
      rfl

/-- Witness for C7 (amended): concrete instance with the second fit taking
a fallback tier, so all four fields including the cached labels match a
fresh fit. -/
theorem C7_refit_replaces_state_witness :
    (MarketHMM.fit envC7 (MarketHMM.fit envC7 (mk0 1 (some 0)) [[1, 1], [2, 2]])
          [[9, 9], [8, 8]]).transition_matrix_ =
        (MarketHMM.fit envC7 (mk0 1 (some 0)) [[9, 9], [8, 8]]).transition_matrix_ ∧
      (MarketHMM.fit envC7 (MarketHMM.fit envC7 (mk0 1 (some 0)) [[1, 1], [2, 2]])
          [[9, 9], [8, 8]]).means_ =
        (MarketHMM.fit envC7 (mk0 1 (some 0)) [[9, 9], [8, 8]]).means_ ∧
      (MarketHMM.fit envC7 (MarketHMM.fit envC7 (mk0 1 (some 0)) [[1, 1], [2, 2]])
          [[9, 9], [8, 8]]).fallback =
        (MarketHMM.fit envC7 (mk0 1 (some 0)) [[9, 9], [8, 8]]).fallback ∧
      ((envC7.hmm 1 (some 0) [[9, 9], [8, 8]]).isSuccess = false →
        (MarketHMM.fit envC7 (MarketHMM.fit envC7 (mk0 1 (some 0)) [[1, 1], [2, 2]])
            [[9, 9], [8, 8]]).last_labels =
          (MarketHMM.fit envC7 (mk0 1 (some 0)) [[9, 9], [8, 8]]).last_labels) :=
  C7_refit_replaces_state envC7 1 (some 0) [[1, 1], [2, 2]] [[9, 9], [8, 8]]

/-! ### Claim C8 -/

/-- C8: `next_state_probabilities` and `expected_next_return` are pure
reads: two successive calls with the same arguments and no intervening
`fit` return identical results, and the instance after both calls is the
instance before them (the method bodies assign no attribute). -/
theorem C8_queries_pure (m : MarketHMM) (c ri : ℕ) :
    (next_state_probabilities_run (next_state_probabilities_run m c).2 c).1 =
        (next_state_probabilities_run m c).1 ∧
      (next_state_probabilities_run (next_state_probabilities_run m c).2 c).2 = m ∧
      (expected_next_return_run (expected_next_return_run m c ri).2 c ri).1 =
        (expected_next_return_run m c ri).1 ∧
      (expected_next_return_run (expected_next_return_run m c ri).2 c ri).2 = m :=
  ⟨rfl, rfl, rfl, rfl⟩

/-! ### Claim C9 -/

/-- C9: with a configured (non-absent) seed, `fit` is reproducible: the
source threads `self.random_state` into every tier (hmmlearn, the mixture,
KMeans, and `np.random.RandomState` in the degenerate tier) and introduces
no other nondeterminism, so two runs on models constructed with the same
`stateCount` and seed, against external estimators that behave the same at
that seed and input (as the deterministic seeded libraries do), produce
identical transition matrices, state means and decoded labels — in every
estimation tier. -/
theorem C9_seed_determinism (env1 env2 : FitEnv) (k : ℕ) (s : ℤ) (X : List (List ℚ))
    (hh : env1.hmm k (some s) X = env2.hmm k (some s) X)
    (hg : env1.gm k (some s) X = env2.gm k (some s) X)
    (hk : env1.km k (some s) X = env2.km k (some s) X)
    (hr : env1.rand (some s) k X.length = env2.rand (some s) k X.length) :
    MarketHMM.fit env1 (mk0 k (some s)) X = MarketHMM.fit env2 (mk0 k (some s)) X := by
  unfold MarketHMM.fit fitLabels fitMeans
  simp only [mk0]
  rw [← hh, ← hg, ← hk, ← hr]

/-- Witness for C9: two identical environments at seed 0 yield the same
fitted model. -/
theorem C9_seed_determinism_witness :
    MarketHMM.fit envC1 (mk0 2 (some 0)) [[1, 1], [1, 1]] =
      MarketHMM.fit envC1 (mk0 2 (some 0)) [[1, 1], [1, 1]] :=
  C9_seed_determinism envC1 envC1 2 0 [[1, 1], [1, 1]] rfl rfl rfl rfl

/-! ### Claim C10 -/

/-- C10: `predict_next_state` returns the current state unchanged when no
transition matrix has been set, and on a fitted model returns — without
raising — the index of the (first) maximum entry of the current state's
transition row, an integer in `[0, stateCount)`. -/
theorem C10_predict_next_state (m : MarketHMM) (c : ℕ)
    (hwf : WF m) (hc : c < m.n_states) :
    (m.transition_matrix_ = none → predict_next_state m c = some c) ∧
      (∀ T, m.transition_matrix_ = some T →
        ∃ row, T.get? c = some row ∧
          predict_next_state m c = some (argmaxIdx row) ∧
          argmaxIdx row < m.n_states ∧
          ∀ x ∈ row, x ≤ row.getD (argmaxIdx row) 0) := by
  obtain ⟨_, hT, _, _⟩ := (WF_iff m).mp hwf
  constructor
  · intro h
    unfold predict_next_state
    rw [h]
  · intro T hTm
    obtain ⟨hTl, hTr⟩ := hT T hTm
    have hcT : c < T.length := by omega
    have hrow : T.get? c = some (T.getD c []) := get?_eq_some_getD T c [] hcT
    have hmem : T.getD c [] ∈ T := List.get?_mem hrow
    have hlen : (T.getD c []).length = m.n_states := hTr _ hmem
    have hne : T.getD c [] ≠ [] := by
      intro hnil
      rw [hnil] at hlen
      simp at hlen
      omega
    obtain ⟨hlt, hmax⟩ := argmaxIdx_spec (T.getD c []) hne
    refine ⟨T.getD c [], hrow, ?_, by omega, hmax⟩
    unfold predict_next_state
    rw [hTm]
    show Option.map argmaxIdx (T.get? c) = some (argmaxIdx (T.getD c []))
    rw [hrow]
    rfl

/-- Concrete fitted model for the C10 witness. -/
def mC10 : MarketHMM :=
  { mk0 2 none with transition_matrix_ := some [[1 / 4, 3 / 4], [1, 0]] }

/-- Witness for C10 on `mC10` at state 0. -/
theorem C10_predict_next_state_witness :
    (mC10.transition_matrix_ = none → predict_next_state mC10 0 = some 0) ∧
      (∀ T, mC10.transition_matrix_ = some T →
        ∃ row, T.get? 0 = some row ∧
          predict_next_state mC10 0 = some (argmaxIdx row) ∧
          argmaxIdx row < mC10.n_states ∧
          ∀ x ∈ row, x ≤ row.getD (argmaxIdx row) 0) :=
  C10_predict_next_state mC10 0 rfl (by decide)
